import Mathlib

/-!
Verification of the chat-completion client in nano-jarvis.js.

The development shallowly embeds the streaming SSE decoder of the
function chat (the loop over reader chunks, lines 63-101 of the
source), its helper parse (lines 44-61), and the buffered decode path
(lines 33-41).  Text is modelled as List Char; a received byte chunk is
modelled by its decoded text (the source calls TextDecoder per chunk).
JavaScript JSON.parse is modelled by an executable fueled JSON parser
over the same grammar (ECMA-404, with JSON.parse's whitespace set and
last-write-wins duplicate object keys).  The JS distinction between
null and undefined, which the source's loop branches on, is modelled by
Option (Option Str): none is JS null, some none is JS undefined (or a
non-string delta content), and some (some s) is a string content s.
Non-string contents carrying a positive JS length (a nonempty array, an
object with a length member) would make the source coerce or throw;
such payloads are outside the regime the theorems quantify over (the
skipsContent predicate delimits it where it matters).
-/

abbrev Str := List Char

/-- Text of a Lean string literal, as a list of characters. -/
def str (s : String) : Str := s.data

/-- Whitespace as stripped by JavaScript String.prototype.trim
(WhiteSpace and LineTerminator code points). -/
def jsWs (c : Char) : Bool :=
  c == ' ' || c == '\t' || c == '\n' || c == '\r' || c == '\x0b' || c == '\x0c' ||
  c.toNat == 0xa0 || c.toNat == 0xfeff || c.toNat == 0x1680 ||
  (0x2000 <= c.toNat && c.toNat <= 0x200a) ||
  c.toNat == 0x2028 || c.toNat == 0x2029 || c.toNat == 0x202f ||
  c.toNat == 0x205f || c.toNat == 0x3000

/-- Left half of JS trim: drop leading whitespace. -/
def jsTrimL (s : Str) : Str := s.dropWhile jsWs

/-- Right half of JS trim: drop trailing whitespace. -/
def jsTrimR (s : Str) : Str := (s.reverse.dropWhile jsWs).reverse

/-- Model of JavaScript String.prototype.trim: strips whitespace from
both ends. -/
def jsTrim (s : Str) : Str := jsTrimR (jsTrimL s)

/-- Concatenation of a list of texts, in order. -/
def concatS (xs : List Str) : Str := xs.foldr (fun a b => a ++ b) []

/-- Model of text.split("\n") in JavaScript: always returns at least
one (possibly empty) piece; a trailing newline yields a final empty
piece. -/
def splitNl : Str → List Str
  | [] => [[]]
  | c :: cs =>
    match splitNl cs with
    | [] => [[]]
    | h :: t => if c = '\n' then [] :: h :: t else (c :: h) :: t

/-- JSON values as produced by JSON.parse.  Numbers keep their lexeme:
the source never uses a numeric value, only the shape of the payload. -/
inductive Json where
  | null
  | bool (b : Bool)
  | num (lexeme : Str)
  | str (s : Str)
  | arr (elems : List Json)
  | obj (fields : List (Str × Json))

/-- Whitespace accepted between JSON tokens by JSON.parse. -/
def jws (c : Char) : Bool := c == ' ' || c == '\t' || c == '\n' || c == '\r'

/-- Skip inter-token JSON whitespace. -/
def skipJws (s : Str) : Str := s.dropWhile jws

/-- Value of one hexadecimal digit. -/
def hexVal (c : Char) : Option Nat :=
  if c.isDigit then some (c.toNat - 48)
  else if 'a' ≤ c ∧ c ≤ 'f' then some (c.toNat - 97 + 10)
  else if 'A' ≤ c ∧ c ≤ 'F' then some (c.toNat - 65 + 10)
  else none

/-- Body of a JSON string after the opening quote: returns the decoded
text and the rest of the input after the closing quote.  Handles the
JSON escapes and surrogate pairs; an unpaired surrogate is replaced by
U+FFFD (Lean characters are scalar values, unlike JS UTF-16 strings; no
theorem below depends on unpaired surrogates). -/
def parseStringBody : Nat → Str → Option (Str × Str)
  | 0, _ => none
  | Nat.succ fuel, s =>
    match s with
    | [] => none
    | '"' :: r => some ([], r)
    | '\\' :: r =>
      (match r with
       | '"' :: r1 => (parseStringBody fuel r1).map (fun p => ('"' :: p.1, p.2))
       | '\\' :: r1 => (parseStringBody fuel r1).map (fun p => ('\\' :: p.1, p.2))
       | '/' :: r1 => (parseStringBody fuel r1).map (fun p => ('/' :: p.1, p.2))
       | 'b' :: r1 => (parseStringBody fuel r1).map (fun p => ('\x08' :: p.1, p.2))
       | 'f' :: r1 => (parseStringBody fuel r1).map (fun p => ('\x0c' :: p.1, p.2))
       | 'n' :: r1 => (parseStringBody fuel r1).map (fun p => ('\n' :: p.1, p.2))
       | 'r' :: r1 => (parseStringBody fuel r1).map (fun p => ('\r' :: p.1, p.2))
       | 't' :: r1 => (parseStringBody fuel r1).map (fun p => ('\t' :: p.1, p.2))
       | 'u' :: h1 :: h2 :: h3 :: h4 :: r1 =>
         (match hexVal h1, hexVal h2, hexVal h3, hexVal h4 with
          | some a, some b, some c, some d =>
            let n := ((a * 16 + b) * 16 + c) * 16 + d
            if 0xD800 ≤ n ∧ n ≤ 0xDBFF then
              (match r1 with
               | '\\' :: 'u' :: g1 :: g2 :: g3 :: g4 :: r2 =>
                 (match hexVal g1, hexVal g2, hexVal g3, hexVal g4 with
                  | some a2, some b2, some c2, some d2 =>
                    let m := ((a2 * 16 + b2) * 16 + c2) * 16 + d2
                    if 0xDC00 ≤ m ∧ m ≤ 0xDFFF then
                      (parseStringBody fuel r2).map (fun p =>
                        (Char.ofNat (0x10000 + (n - 0xD800) * 0x400 + (m - 0xDC00)) :: p.1, p.2))
                    else (parseStringBody fuel r1).map (fun p => ('\ufffd' :: p.1, p.2))
                  | _, _, _, _ => (parseStringBody fuel r1).map (fun p => ('\ufffd' :: p.1, p.2)))
               | _ => (parseStringBody fuel r1).map (fun p => ('\ufffd' :: p.1, p.2)))
            else if 0xDC00 ≤ n ∧ n ≤ 0xDFFF then
              (parseStringBody fuel r1).map (fun p => ('\ufffd' :: p.1, p.2))
            else
              (parseStringBody fuel r1).map (fun p => (Char.ofNat n :: p.1, p.2))
          | _, _, _, _ => none)
       | _ => none)
    | c :: r =>
      if c.toNat < 0x20 then none
      else (parseStringBody fuel r).map (fun p => (c :: p.1, p.2))

/-- Integer part of a JSON number: a single 0, or a nonzero digit
followed by digits. -/
def parseIntPart : Str → Option (Str × Str)
  | [] => none
  | c :: r =>
    if c = '0' then some (['0'], r)
    else if c.isDigit then
      some (c :: r.takeWhile Char.isDigit, r.dropWhile Char.isDigit)
    else none

/-- Optional fractional part of a JSON number. -/
def parseFracPart (s : Str) : Option (Str × Str) :=
  match s with
  | '.' :: r =>
    if r.takeWhile Char.isDigit = [] then none
    else some ('.' :: r.takeWhile Char.isDigit, r.dropWhile Char.isDigit)
  | _ => some ([], s)

/-- Optional exponent part of a JSON number. -/
def parseExpPart (s : Str) : Option (Str × Str) :=
  match s with
  | c :: r =>
    if c == 'e' || c == 'E' then
      let sr : Str × Str :=
        match r with
        | '+' :: r1 => (['+'], r1)
        | '-' :: r1 => (['-'], r1)
        | _ => ([], r)
      if sr.2.takeWhile Char.isDigit = [] then none
      else some (c :: (sr.1 ++ sr.2.takeWhile Char.isDigit), sr.2.dropWhile Char.isDigit)
    else some ([], c :: r)
  | [] => some ([], [])

/-- A JSON number token; the lexeme is kept, its value is never used. -/
def parseNumber (s : Str) : Option (Json × Str) :=
  let ns : Str × Str := match s with | '-' :: r => (['-'], r) | _ => ([], s)
  match parseIntPart ns.2 with
  | none => none
  | some (ip, s2) =>
    match parseFracPart s2 with
    | none => none
    | some (fp, s3) =>
      match parseExpPart s3 with
      | none => none
      | some (ep, s4) => some (.num (ns.1 ++ ip ++ fp ++ ep), s4)

mutual

/-- One JSON value, fuel-bounded (the fuel only limits nesting and list
length; the top-level caller supplies input length + 1, which always
suffices since every recursive step consumes input). -/
def parseValue : Nat → Str → Option (Json × Str)
  | 0, _ => none
  | Nat.succ fuel, s0 =>
    match skipJws s0 with
    | 'n' :: 'u' :: 'l' :: 'l' :: r => some (.null, r)
    | 't' :: 'r' :: 'u' :: 'e' :: r => some (.bool true, r)
    | 'f' :: 'a' :: 'l' :: 's' :: 'e' :: r => some (.bool false, r)
    | '"' :: r =>
      (match parseStringBody (r.length + 1) r with
       | some (cs, r1) => some (.str cs, r1)
       | none => none)
    | '[' :: r =>
      (match skipJws r with
       | ']' :: r1 => some (.arr [], r1)
       | r1 =>
         match parseElems fuel r1 with
         | some (vs, r2) => some (.arr vs, r2)
         | none => none)
    | '{' :: r =>
      (match skipJws r with
       | '}' :: r1 => some (.obj [], r1)
       | r1 =>
         match parseFields fuel r1 with
         | some (fs, r2) => some (.obj fs, r2)
         | none => none)
    | s1 => parseNumber s1

/-- Comma-separated JSON array elements up to the closing bracket. -/
def parseElems : Nat → Str → Option (List Json × Str)
  | 0, _ => none
  | Nat.succ fuel, s =>
    match parseValue fuel s with
    | none => none
    | some (v, r) =>
      match skipJws r with
      | ',' :: r1 =>
        (match parseElems fuel r1 with
         | some (vs, r2) => some (v :: vs, r2)
         | none => none)
      | ']' :: r1 => some ([v], r1)
      | _ => none

/-- Comma-separated JSON object members up to the closing brace. -/
def parseFields : Nat → Str → Option (List (Str × Json) × Str)
  | 0, _ => none
  | Nat.succ fuel, s =>
    match skipJws s with
    | '"' :: r =>
      (match parseStringBody (r.length + 1) r with
       | none => none
       | some (k, r1) =>
         match skipJws r1 with
         | ':' :: r2 =>
           (match parseValue fuel r2 with
            | none => none
            | some (v, r3) =>
              match skipJws r3 with
              | ',' :: r4 =>
                (match parseFields fuel r4 with
                 | some (fs, r5) => some ((k, v) :: fs, r5)
                 | none => none)
              | '}' :: r4 => some ([(k, v)], r4)
              | _ => none)
         | _ => none)
    | _ => none

end

/-- Model of JSON.parse: one JSON value, surrounded only by JSON
whitespace; anything else throws (none). -/
def jparse (s : Str) : Option Json :=
  match parseValue (s.length + 1) s with
  | some (v, r) => if skipJws r = [] then some v else none
  | none => none

/-- Property lookup on a parsed JSON object: a later duplicate key wins,
as in a JavaScript object literal. -/
def getField (fs : List (Str × Json)) (k : Str) : Option Json :=
  fs.foldl (fun acc p => if p.1 = k then some p.2 else acc) none

/-- The body of the source's parse function after the prefix has been
stripped (lines 49-58): JSON.parse the payload, then
choices[0].delta?.content under a try/catch.  none models JS null (the
catch path, or a delta content that is JSON null), some none models JS
undefined (no delta, no content field, or a non-string content),
some (some s) a string content.  The mapping of non-string contents to
the skip outcome is exact only for the shapes the loop's guard rejects
(numbers, booleans, empty arrays, length-less objects); a content with
a positive JS length would enter the source's content branch and coerce
or throw, and no theorem below quantifies over such payloads
(skipsContent names the faithful class). -/
def jsonExtract (payload : Str) : Option (Option Str) :=
  match jparse payload with
  | none => none
  | some j =>
    match j with
    | .obj fields =>
      match getField fields (str "choices") with
      | some (.arr xs) =>
        (match xs with
         | [] => none
         | choice :: _ =>
           match choice with
           | .obj cf =>
             (match getField cf (str "delta") with
              | some (.obj df) =>
                (match getField df (str "content") with
                 | some (.str s) => some (some s)
                 | some .null => none
                 | some _ => some none
                 | none => some none)
              | some .null => some none
              | some _ => some none
              | none => some none)
           | .null => none
           | _ => some none)
      | some (.str cs) => if cs = [] then none else some none
      | _ => none
    | _ => none

/-- The source's parse helper (lines 44-61): a line yields a content
fragment only when it starts with the six characters of the data
marker; its remainder is handed to JSON.parse. -/
def parse (line : Str) : Option (Option Str) :=
  if line.take 6 = str "data: " then jsonExtract (line.drop 6) else none

/-- The literal terminal event line compared against on line 80. -/
def doneLine : Str := str "data: [DONE]"

/-- State of one in-flight streaming call: the source's buffer (the
spec's pendingLine), answer, and the list of fragments passed to the
handler so far, in delivery order. -/
structure DecoderState where
  buffer : Str
  answer : Str
  events : List Str
deriving DecidableEq

/-- Initial state of the streaming loop (lines 66-67). -/
def initState : DecoderState := ⟨[], [], []⟩

/-- The per-chunk for loop of chat (lines 74-99): each candidate line is
the held buffer followed by the next split piece; a leading colon
discards the buffer and skips; the literal terminator stops this chunk's
remaining lines; a nonempty line is parsed, a null result stores the
line in the buffer, a nonempty string content is accumulated (trimmed
on both ends if nothing has been accumulated yet, verbatim otherwise)
and delivered to the handler, and any other result leaves all state
unchanged. -/
def processLines (st : DecoderState) : List Str → DecoderState
  | [] => st
  | l :: ls =>
    if (st.buffer ++ l).head? = some ':' then
      processLines ⟨[], st.answer, st.events⟩ ls
    else if st.buffer ++ l = doneLine then
      st
    else if st.buffer ++ l = [] then
      processLines st ls
    else
      match parse (st.buffer ++ l) with
      | none => processLines ⟨st.buffer ++ l, st.answer, st.events⟩ ls
      | some none => processLines st ls
      | some (some s) =>
        if s = [] then processLines st ls
        else if st.answer = [] then
          processLines ⟨[], jsTrim s, st.events ++ (if jsTrim s = [] then [] else [jsTrim s])⟩ ls
        else
          processLines ⟨[], st.answer ++ s, st.events ++ [s]⟩ ls

/-- One iteration of the read loop (lines 69-99): decode the chunk,
split it on newlines, and run the line loop. -/
def processChunk (st : DecoderState) (chunk : Str) : DecoderState :=
  processLines st (splitNl chunk)

/-- The streaming read loop of chat from an arbitrary starting state:
chunks are consumed until the transport reports end-of-stream, i.e. the
whole list is folded, and the state at that point is returned. -/
def chatStreamFrom (st : DecoderState) (chunks : List Str) : DecoderState :=
  chunks.foldl processChunk st

/-- The streaming branch of chat (lines 63-101): consume every chunk the
transport delivers and return the final state; the source returns its
answer field.  The events field records the handler notifications. -/
def chatStream (chunks : List Str) : DecoderState :=
  chatStreamFrom initState chunks

/-- The buffered branch of chat (lines 33-41):
data.choices[0].message.content.trim().  Any of the reads throwing
(missing field, non-string content) is the fatal decode error, modelled
by none. -/
def bufferedAnswer (j : Json) : Option Str :=
  match j with
  | .obj fields =>
    match getField fields (str "choices") with
    | some (.arr (c :: _)) =>
      (match c with
       | .obj cf =>
         (match getField cf (str "message") with
          | some (.obj mf) =>
            (match getField mf (str "content") with
             | some (.str s) => some (jsTrim s)
             | _ => none)
          | _ => none)
       | _ => none)
    | _ => none
  | _ => none

/-- The buffered response body carrying a given answer text, in the
shape the spec names: one choice whose message content is the text. -/
def bodyJson (c : Str) : Json :=
  .obj [(str "choices", .arr [.obj [(str "message", .obj [(str "content", .str c)])]])]

/-- Head of a well-formed single-delta SSE data line, up to the opening
quote of the content string. -/
def lineHead : Str := str "data: \x7b\"choices\":[\x7b\"delta\":\x7b\"content\":\""

/-- Tail of a well-formed single-delta SSE data line, from the closing
quote of the content string. -/
def lineTail : Str := str "\"\x7d\x7d]\x7d"

/-- A well-formed SSE data line whose delta content is the given text
spliced verbatim between the quotes. -/
def mkLine (s : Str) : Str := lineHead ++ s ++ lineTail

/-- One chunk carrying exactly one well-formed data line. -/
def mkChunk (s : Str) : Str := mkLine s ++ ['\n']

/-- A well-formed data line whose event has an empty delta object, so
the extracted content is JS undefined. -/
def noContentLine : Str := str "data: \x7b\"choices\":[\x7b\"delta\":\x7b\x7d\x7d]\x7d"

/-- Sufficient condition under which a fragment decomposition reproduces
the buffered answer: every fragment before the first content-bearing one
is all-whitespace (checked implicitly), the first content-bearing
fragment carries no trailing whitespace, and the fragments after it
concatenate to a text with no trailing whitespace. -/
def c1cond : List Str → Bool
  | [] => true
  | f :: rest =>
    if jsTrim f = [] then c1cond rest
    else decide (jsTrimR f = f) && decide (jsTrimR (concatS rest) = concatS rest)

/-- The payload shapes whose extracted delta content the guard on line
87 (partial truthy with positive length) genuinely rejects, leaving all
state untouched: the event parses and the content is JS undefined (a
string-valued choices, no delta, a null delta, a primitive delta, an
absent content field) or truthy-but-lengthless or of length zero (a
number, a boolean, an empty array, an object without a length member).
String and null contents are the other outcomes of jsonExtract; a
nonempty array or an object with a length member, on which the source
would coerce or throw, is deliberately excluded. -/
def skipsContent (payload : Str) : Bool :=
  match jparse payload with
  | none => false
  | some j =>
    match j with
    | .obj fields =>
      match getField fields (str "choices") with
      | some (.arr xs) =>
        (match xs with
         | [] => false
         | choice :: _ =>
           match choice with
           | .obj cf =>
             (match getField cf (str "delta") with
              | some (.obj df) =>
                (match getField df (str "content") with
                 | some (.str _) => false
                 | some .null => false
                 | some (.num _) => true
                 | some (.bool _) => true
                 | some (.arr ys) => ys.isEmpty
                 | some (.obj df2) => (getField df2 (str "length")).isNone
                 | none => true)
              | some .null => true
              | some _ => true
              | none => true)
           | .null => false
           | _ => true)
      | some (.str cs) => !cs.isEmpty
      | _ => false
    | _ => false

/-! ### Elementary lemmas about concatenation, dropWhile and the trims -/

theorem concatS_cons (x : Str) (xs : List Str) : concatS (x :: xs) = x ++ concatS xs := rfl

theorem concatS_append_one (xs : List Str) (y : Str) :
    concatS (xs ++ [y]) = concatS xs ++ y := by
  induction xs with
  | nil => simp [concatS]
  | cons a t ih => simp only [List.cons_append, concatS_cons, ih, List.append_assoc]

theorem dropWhile_append_all {α : Type} (p : α → Bool) (a b : List α)
    (h : ∀ x ∈ a, p x) : List.dropWhile p (a ++ b) = List.dropWhile p b := by
  induction a with
  | nil => rfl
  | cons c t ih =>
    rw [List.cons_append, List.dropWhile_cons, if_pos (h c (by simp))]
    exact ih (fun x hx => h x (by simp [hx]))

theorem dropWhile_append_ne_nil {α : Type} (p : α → Bool) (a b : List α)
    (h : List.dropWhile p a ≠ []) :
    List.dropWhile p (a ++ b) = List.dropWhile p a ++ b := by
  induction a with
  | nil => simp at h
  | cons c t ih =>
    by_cases hc : p c = true
    · rw [List.cons_append, List.dropWhile_cons, if_pos hc]
      rw [List.dropWhile_cons, if_pos hc] at h ⊢
      exact ih h
    · rw [List.cons_append, List.dropWhile_cons, if_neg hc,
        List.dropWhile_cons, if_neg hc, List.cons_append]

theorem dropWhile_head_false {α : Type} (p : α → Bool) (l : List α) (c : α) (t : List α)
    (h : List.dropWhile p l = c :: t) : p c = false := by
  induction l with
  | nil => simp [List.dropWhile] at h
  | cons a r ih =>
    rw [List.dropWhile_cons] at h
    by_cases ha : p a = true
    · rw [if_pos ha] at h; exact ih h
    · rw [if_neg ha] at h
      cases h
      simpa using ha

theorem jsTrimL_nil_iff (f : Str) : jsTrimL f = [] ↔ ∀ x ∈ f, jsWs x := by
  unfold jsTrimL
  exact List.dropWhile_eq_nil_iff

theorem jsTrim_nil_trimL (f : Str) (h : jsTrim f = []) : jsTrimL f = [] := by
  cases hL : jsTrimL f with
  | nil => rfl
  | cons c t =>
    exfalso
    have hc : jsWs c = false := dropWhile_head_false jsWs f c t hL
    have hR : jsTrimR (c :: t) = [] := by rw [jsTrim, hL] at h; exact h
    have h2 : List.dropWhile jsWs (c :: t).reverse = [] := by
      unfold jsTrimR at hR
      rwa [List.reverse_eq_nil_iff] at hR
    rw [List.dropWhile_eq_nil_iff] at h2
    have : jsWs c = true := h2 c (by simp)
    simp [hc] at this

theorem jsTrim_nil_append (f x : Str) (h : jsTrim f = []) :
    jsTrim (f ++ x) = jsTrim x := by
  have h1 : jsTrimL f = [] := jsTrim_nil_trimL f h
  have h2 : jsTrimL (f ++ x) = jsTrimL x := by
    unfold jsTrimL
    exact dropWhile_append_all jsWs f x ((jsTrimL_nil_iff f).mp h1)
  unfold jsTrim
  rw [h2]

theorem jsTrimL_append_ne (f x : Str) (h : jsTrimL f ≠ []) :
    jsTrimL (f ++ x) = jsTrimL f ++ x :=
  dropWhile_append_ne_nil jsWs f x h

theorem jsTrimR_append_keep (x r : Str) (hne : r ≠ []) (hr : jsTrimR r = r) :
    jsTrimR (x ++ r) = x ++ r := by
  have h1 : List.dropWhile jsWs r.reverse = r.reverse := by
    have := congrArg List.reverse hr
    unfold jsTrimR at this
    simpa using this
  cases hrev : r.reverse with
  | nil => exact absurd (by simpa using hrev) hne
  | cons c t =>
    rw [hrev] at h1
    have hc : jsWs c = false := dropWhile_head_false jsWs (c :: t) c t h1
    unfold jsTrimR
    rw [List.reverse_append, hrev, List.cons_append, List.dropWhile_cons, if_neg (by simp [hc]),
      ← List.cons_append, ← hrev, ← List.reverse_append]
    simp

theorem jsTrim_ne_nil_trimL (f : Str) (h : jsTrim f ≠ []) : jsTrimL f ≠ [] := by
  intro hL
  apply h
  unfold jsTrim
  rw [hL]
  rfl

theorem jsTrim_eq_trimL (f : Str) (hR : jsTrimR f = f) (hne : jsTrimL f ≠ []) :
    jsTrim f = jsTrimL f := by
  unfold jsTrim
  cases hd : (jsTrimL f).reverse with
  | nil => exact absurd (by simpa using hd) hne
  | cons c t =>
    have hsplit : List.takeWhile jsWs f ++ jsTrimL f = f := by
      unfold jsTrimL
      exact List.takeWhile_append_dropWhile jsWs f
    have hfr : f.reverse = c :: (t ++ (List.takeWhile jsWs f).reverse) := by
      conv_lhs => rw [← hsplit]
      rw [List.reverse_append, hd, List.cons_append]
    have h1 : List.dropWhile jsWs f.reverse = f.reverse := by
      have := congrArg List.reverse hR
      unfold jsTrimR at this
      simpa using this
    rw [hfr] at h1
    have hc : jsWs c = false :=
      dropWhile_head_false jsWs _ c _ h1
    unfold jsTrimR
    rw [hd, List.dropWhile_cons, if_neg (by simp [hc]), ← hd]
    simp

/-! ### Lemmas about line splitting -/

theorem splitNl_ne_nil (s : Str) : splitNl s ≠ [] := by
  cases s with
  | nil => simp [splitNl]
  | cons c cs =>
    simp only [splitNl]
    cases h : splitNl cs with
    | nil => simp
    | cons a b => by_cases hc : c = '\n' <;> simp [hc]

theorem splitNl_no_nl (a : Str) (h : '\n' ∉ a) : splitNl a = [a] := by
  induction a with
  | nil => rfl
  | cons c cs ih =>
    have hc : c ≠ '\n' := fun e => h (by simp [e])
    have hcs : '\n' ∉ cs := fun m => h (by simp [m])
    simp only [splitNl, ih hcs]
    simp [hc]

theorem splitNl_append_nl (a t : Str) (h : '\n' ∉ a) :
    splitNl (a ++ '\n' :: t) = a :: splitNl t := by
  induction a with
  | nil =>
    simp only [List.nil_append, splitNl]
    cases ht : splitNl t with
    | nil => exact absurd ht (splitNl_ne_nil t)
    | cons x y => simp
  | cons c cs ih =>
    have hc : c ≠ '\n' := fun e => h (by simp [e])
    have hcs : '\n' ∉ cs := fun m => h (by simp [m])
    rw [List.cons_append]
    simp only [splitNl]
    rw [ih hcs]
    simp [hc]

/-! ### Shape lemmas about parse -/

theorem dataMark_chars : str "data: " = ['d', 'a', 't', 'a', ':', ' '] := rfl

theorem parse_done_none : parse doneLine = none := by decide

theorem parse_some_mark (line : Str) (o : Option Str) (h : parse line = some o) :
    line.take 6 = str "data: " := by
  unfold parse at h
  by_cases hp : line.take 6 = str "data: "
  · exact hp
  · rw [if_neg hp] at h
    cases h

theorem take6_facts (line : Str) (h : line.take 6 = str "data: ") :
    line.head? = some 'd' ∧ line ≠ [] := by
  rw [dataMark_chars] at h
  cases line with
  | nil => simp at h
  | cons c r =>
    simp only [List.take_succ_cons, List.cons.injEq] at h
    exact ⟨by simp [h.1], by simp⟩

theorem parse_some_head (line : Str) (o : Option Str) (h : parse line = some o) :
    line.head? = some 'd' :=
  (take6_facts line (parse_some_mark line o h)).1

theorem parse_some_ne_nil (line : Str) (o : Option Str) (h : parse line = some o) :
    line ≠ [] :=
  (take6_facts line (parse_some_mark line o h)).2

theorem parse_some_ne_done (line : Str) (o : Option Str) (h : parse line = some o) :
    line ≠ doneLine := by
  intro e
  rw [e, parse_done_none] at h
  cases h

theorem parse_some_not_comment (line : Str) (o : Option Str) (h : parse line = some o) :
    ¬ line.head? = some ':' := by
  rw [parse_some_head line o h]
  simp

/-! ### Branch lemmas for the line loop -/

theorem processLines_nil (st : DecoderState) : processLines st [] = st := rfl

theorem processLines_comment (st : DecoderState) (l : Str) (ls : List Str)
    (h : (st.buffer ++ l).head? = some ':') :
    processLines st (l :: ls) = processLines ⟨[], st.answer, st.events⟩ ls := by
  simp only [processLines]
  rw [if_pos h]

theorem processLines_done (st : DecoderState) (l : Str) (ls : List Str)
    (h : st.buffer ++ l = doneLine) :
    processLines st (l :: ls) = st := by
  simp only [processLines]
  rw [if_neg (by rw [h, doneLine]; simp [str]), if_pos h]

theorem processLines_empty (st : DecoderState) (l : Str) (ls : List Str)
    (h : st.buffer ++ l = []) :
    processLines st (l :: ls) = processLines st ls := by
  simp only [processLines]
  rw [if_neg (by rw [h]; simp), if_neg (by rw [h, doneLine]; simp [str]), if_pos h]

theorem processLines_null (st : DecoderState) (l : Str) (ls : List Str)
    (hc : ¬ (st.buffer ++ l).head? = some ':')
    (hd : st.buffer ++ l ≠ doneLine)
    (hn : st.buffer ++ l ≠ [])
    (h : parse (st.buffer ++ l) = none) :
    processLines st (l :: ls) = processLines ⟨st.buffer ++ l, st.answer, st.events⟩ ls := by
  simp only [processLines]
  rw [if_neg hc, if_neg hd, if_neg hn, h]

theorem processLines_undef (st : DecoderState) (l : Str) (ls : List Str)
    (h : parse (st.buffer ++ l) = some none) :
    processLines st (l :: ls) = processLines st ls := by
  simp only [processLines]
  rw [if_neg (parse_some_not_comment _ _ h), if_neg (parse_some_ne_done _ _ h),
    if_neg (parse_some_ne_nil _ _ h), h]

theorem processLines_content_empty (st : DecoderState) (l : Str) (ls : List Str)
    (h : parse (st.buffer ++ l) = some (some [])) :
    processLines st (l :: ls) = processLines st ls := by
  simp only [processLines]
  rw [if_neg (parse_some_not_comment _ _ h), if_neg (parse_some_ne_done _ _ h),
    if_neg (parse_some_ne_nil _ _ h), h]
  simp

theorem processLines_content_fresh (st : DecoderState) (l : Str) (ls : List Str) (s : Str)
    (h : parse (st.buffer ++ l) = some (some s)) (hs : s ≠ []) (ha : st.answer = []) :
    processLines st (l :: ls) =
      processLines ⟨[], jsTrim s, st.events ++ (if jsTrim s = [] then [] else [jsTrim s])⟩ ls := by
  simp only [processLines]
  rw [if_neg (parse_some_not_comment _ _ h), if_neg (parse_some_ne_done _ _ h),
    if_neg (parse_some_ne_nil _ _ h), h]
  simp [hs, ha]

theorem processLines_content_append (st : DecoderState) (l : Str) (ls : List Str) (s : Str)
    (h : parse (st.buffer ++ l) = some (some s)) (hs : s ≠ []) (ha : st.answer ≠ []) :
    processLines st (l :: ls) =
      processLines ⟨[], st.answer ++ s, st.events ++ [s]⟩ ls := by
  simp only [processLines]
  rw [if_neg (parse_some_not_comment _ _ h), if_neg (parse_some_ne_done _ _ h),
    if_neg (parse_some_ne_nil _ _ h), h]
  simp [hs, ha]

/-! ### The concatenation invariant of the accumulator -/

theorem processLines_concat_inv (ls : List Str) (st : DecoderState)
    (h : st.answer = concatS st.events) :
    (processLines st ls).answer = concatS (processLines st ls).events := by
  induction ls generalizing st with
  | nil => simpa [processLines_nil] using h
  | cons l tl ih =>
    by_cases hc : (st.buffer ++ l).head? = some ':'
    · rw [processLines_comment st l tl hc]
      exact ih _ h
    · by_cases hd : st.buffer ++ l = doneLine
      · rw [processLines_done st l tl hd]
        exact h
      · by_cases hn : st.buffer ++ l = []
        · rw [processLines_empty st l tl hn]
          exact ih _ h
        · cases hp : parse (st.buffer ++ l) with
          | none =>
            rw [processLines_null st l tl hc hd hn hp]
            exact ih _ h
          | some o =>
            cases o with
            | none =>
              rw [processLines_undef st l tl hp]
              exact ih _ h
            | some s =>
              by_cases hs : s = []
              · subst hs
                rw [processLines_content_empty st l tl hp]
                exact ih _ h
              · by_cases ha : st.answer = []
                · rw [processLines_content_fresh st l tl s hp hs ha]
                  apply ih
                  by_cases ht : jsTrim s = []
                  · rw [ht]
                    simp [← h, ha]
                  · simp only [if_neg ht, concatS_append_one]
                    rw [← h, ha, List.nil_append]
                · rw [processLines_content_append st l tl s hp hs ha]
                  apply ih
                  simp only [concatS_append_one, ← h]

theorem chatStreamFrom_concat (chunks : List Str) (st : DecoderState)
    (h : st.answer = concatS st.events) :
    (chatStreamFrom st chunks).answer = concatS (chatStreamFrom st chunks).events := by
  induction chunks generalizing st with
  | nil => simpa [chatStreamFrom] using h
  | cons c cs ih =>
    simp only [chatStreamFrom, List.foldl_cons]
    exact ih (processChunk st c) (processLines_concat_inv (splitNl c) st h)

/-- C2, confirmed.  Fragment concatenation law: over any chunk sequence,
the fragments delivered to the observer, concatenated in delivery
order, equal the answer string the streaming call returns. -/
theorem c2_fragment_concat_law (chunks : List Str) :
    (chatStream chunks).answer = concatS (chatStream chunks).events :=
  chatStreamFrom_concat chunks initState rfl

/-- C6, confirmed.  With the first chunk carrying a data line with delta
content "Hi" and the second chunk carrying the terminator followed in
the same chunk by a data line with content " there", the observer
receives exactly the single fragment "Hi", the answer is "Hi", and
nothing is left pending. -/
theorem c6_same_chunk_termination :
    chatStream [mkChunk (str "Hi"), doneLine ++ '\n' :: mkChunk (str " there")] =
      ⟨[], str "Hi", [str "Hi"]⟩ := by decide

/-- C9, confirmed.  A candidate line reaching the parse step (nonempty,
not a comment, not the terminator) that lacks the data marker or whose
payload JSON.parse rejects is swallowed without error (the embedding is
total; the source catches the exception): the whole candidate line is
stored as the pending buffer, the answer and the delivered fragments
are untouched, and the loop continues with the remaining lines. -/
theorem c9_parse_failure_buffered (st : DecoderState) (l : Str) (ls : List Str)
    (hn : st.buffer ++ l ≠ [])
    (hc : ¬ (st.buffer ++ l).head? = some ':')
    (hd : st.buffer ++ l ≠ doneLine)
    (h : parse (st.buffer ++ l) = none) :
    processLines st (l :: ls) =
      processLines ⟨st.buffer ++ l, st.answer, st.events⟩ ls :=
  processLines_null st l ls hc hd hn h

/-- Witness for C9 at a concrete truncated data line. -/
theorem c9_witness :
    processLines initState [str "data: \x7b\"choi"] =
      ⟨str "data: \x7b\"choi", [], []⟩ :=
  c9_parse_failure_buffered initState (str "data: \x7b\"choi") []
    (by decide) (by decide) (by decide) (by decide)

/-- C10, confirmed.  Before any content has been accumulated, a data
line whose nonempty content trims to nothing stores nothing, notifies
nothing, clears the buffer, and leaves the decoder in the not-started
state (empty answer), so the trim applies again to the next fragment. -/
theorem c10_ws_only_first_fragment (st : DecoderState) (l : Str) (s : Str)
    (hp : parse (st.buffer ++ l) = some (some s)) (hs : s ≠ [])
    (ht : jsTrim s = []) (ha : st.answer = []) :
    processLines st [l] = ⟨[], [], st.events⟩ := by
  rw [processLines_content_fresh st l [] s hp hs ha, ht]
  simp [processLines_nil]

/-- Witness for C10 at a two-space content fragment. -/
theorem c10_witness :
    processLines initState [mkLine (str "  ")] = ⟨[], [], []⟩ :=
  c10_ws_only_first_fragment initState (mkLine (str "  ")) (str "  ")
    (by decide) (by decide) (by decide) (by decide)

/-- C5, corrected (the universally quantified sentence holds; the
claimed consequence about an interleaved comment is refuted by
c5_counterexample).  Whenever the candidate line, i.e. the pending
buffer followed by the incoming piece, starts with a colon, the decoder
clears the buffer and skips the line, leaving the answer and the
delivered fragments unchanged. -/
theorem c5_comment_candidate (st : DecoderState) (l : Str) (ls : List Str)
    (h : (st.buffer ++ l).head? = some ':') :
    processLines st (l :: ls) = processLines ⟨[], st.answer, st.events⟩ ls :=
  processLines_comment st l ls h

/-- Witness for C5 at a concrete heartbeat line. -/
theorem c5_witness :
    processLines ⟨[], str "A", [str "A"]⟩ [str ": ping"] = ⟨[], str "A", [str "A"]⟩ :=
  c5_comment_candidate ⟨[], str "A", [str "A"]⟩ (str ": ping") [] (by decide)

/-- Counterexample for C5 as stated: a comment line delivered between
the two halves of a split data line corrupts that data line - the
pending half makes the candidate start with a data character, so the
comment is not recognized and is glued into the payload; the same
stream without the comment chunk decodes to "Hi". -/
theorem c5_counterexample :
    (chatStream [(mkLine (str "Hi")).take 16, str ": ping" ++ ['\n'],
        (mkLine (str "Hi")).drop 16 ++ ['\n']]).answer = [] ∧
    (chatStream [(mkLine (str "Hi")).take 16,
        (mkLine (str "Hi")).drop 16 ++ ['\n']]).answer = str "Hi" ∧
    ([] : Str) ≠ str "Hi" := by decide

/-- C3, corrected.  The amended single-trim invariant: once content has
been accumulated, every fragment is appended to the answer and
delivered verbatim; the first content-bearing fragment is trimmed of
whitespace on both ends (not only the leading end) before being stored
and delivered, and dropped entirely when nothing survives the trim. -/
theorem c3_trim_amended :
    (∀ (st : DecoderState) (l s : Str), parse (st.buffer ++ l) = some (some s) → s ≠ [] →
      st.answer ≠ [] →
      processLines st [l] = ⟨[], st.answer ++ s, st.events ++ [s]⟩) ∧
    (∀ (st : DecoderState) (l s : Str), parse (st.buffer ++ l) = some (some s) → s ≠ [] →
      st.answer = [] →
      processLines st [l] =
        ⟨[], jsTrim s, st.events ++ (if jsTrim s = [] then [] else [jsTrim s])⟩) := by
  constructor
  · intro st l s hp hs ha
    rw [processLines_content_append st l [] s hp hs ha, processLines_nil]
  · intro st l s hp hs ha
    rw [processLines_content_fresh st l [] s hp hs ha, processLines_nil]

/-- Witness for C3: a later fragment " x " is appended verbatim with its
whitespace; a first fragment " Hi " is trimmed on both ends. -/
theorem c3_witness :
    processLines ⟨[], str "Hi", [str "Hi"]⟩ [mkLine (str " x ")] =
      ⟨[], str "Hi x ", [str "Hi", str " x "]⟩ ∧
    processLines initState [mkLine (str " Hi ")] = ⟨[], str "Hi", [str "Hi"]⟩ :=
  ⟨(c3_trim_amended.1 ⟨[], str "Hi", [str "Hi"]⟩ (mkLine (str " x ")) (str " x ")
      (by decide) (by decide) (by decide)).trans (by decide),
   (c3_trim_amended.2 initState (mkLine (str " Hi ")) (str " Hi ")
      (by decide) (by decide) (by decide)).trans (by decide)⟩

/-- Counterexample for C3 as stated: the first fragment "Hi " loses its
trailing space (the source trims both ends of the first fragment), so
whitespace beyond the one leading trim is not preserved exactly. -/
theorem c3_counterexample :
    (chatStream [mkChunk (str "Hi "), mkChunk (str "there")]).answer = str "Hithere" ∧
    (chatStream [mkChunk (str "Hi "), mkChunk (str "there")]).events =
      [str "Hi", str "there"] ∧
    str "Hithere" ≠ str "Hi there" := by decide

/-- C8, corrected.  The amended invariant: processing a data line clears
the pending buffer when the parsed payload yields a nonempty string
content; when the content is the empty string, the line is skipped and
the pending buffer is left unchanged; and when the payload parses to an
event with no usable content - one of the shapes the guard on line 87
genuinely rejects (no delta, a null delta, a primitive delta, a content
that is absent, a number, a boolean, an empty array, or an object
without a length member, named by skipsContent) - the pending buffer is
likewise left unchanged, not cleared.  A non-string content with a
positive JS length (such as a nonempty array), on which the source
coerces or throws, is outside the claim. -/
theorem c8_pending_amended :
    (∀ (st : DecoderState) (l s : Str), parse (st.buffer ++ l) = some (some s) → s ≠ [] →
      (processLines st [l]).buffer = []) ∧
    (∀ (st : DecoderState) (l : Str), parse (st.buffer ++ l) = some (some []) →
      (processLines st [l]).buffer = st.buffer) ∧
    (∀ (st : DecoderState) (l : Str), parse (st.buffer ++ l) = some none →
      skipsContent ((st.buffer ++ l).drop 6) = true →
      (processLines st [l]).buffer = st.buffer) := by
  refine ⟨?_, ?_, ?_⟩
  · intro st l s hp hs
    by_cases ha : st.answer = []
    · rw [processLines_content_fresh st l [] s hp hs ha, processLines_nil]
    · rw [processLines_content_append st l [] s hp hs ha, processLines_nil]
  · intro st l hp
    rw [processLines_content_empty st l [] hp, processLines_nil]
  · intro st l hp _
    rw [processLines_undef st l [] hp, processLines_nil]

/-- Witness for C8: a content-bearing line clears the buffer; an
empty-string-content line and a delta-without-content line each leave a
held buffer in place. -/
theorem c8_witness :
    (processLines initState [mkLine (str "Hi")]).buffer = [] ∧
    (processLines ⟨(mkLine []).take 7, [], []⟩ [(mkLine []).drop 7]).buffer =
      (mkLine []).take 7 ∧
    (processLines ⟨noContentLine.take 10, [], []⟩ [noContentLine.drop 10]).buffer =
      noContentLine.take 10 :=
  ⟨c8_pending_amended.1 initState (mkLine (str "Hi")) (str "Hi") (by decide) (by decide),
   c8_pending_amended.2.1 ⟨(mkLine []).take 7, [], []⟩ ((mkLine []).drop 7) (by decide),
   c8_pending_amended.2.2 ⟨noContentLine.take 10, [], []⟩ (noContentLine.drop 10)
     (by decide) (by decide)⟩

/-- Counterexample for C8 as stated: a candidate line with the data
marker whose payload parses successfully (delta present, content
absent) leaves the pending buffer nonempty - the held half of the line
is never cleared and will be glued onto the next line. -/
theorem c8_counterexample :
    parse noContentLine = some none ∧
    (processLines ⟨noContentLine.take 26, [], []⟩ [noContentLine.drop 26]).buffer =
      noContentLine.take 26 ∧
    noContentLine.take 26 ≠ [] := by decide

/-- C7, confirmed.  The terminator stops only the line loop of its own
chunk: a chunk beginning with the terminator leaves the whole state
untouched (whatever follows it in that chunk is dropped), and the call
returns the accumulated answer only at end-of-stream, so data lines in
later chunks still extend the answer and notify the observer. -/
theorem c7_done_only_breaks_chunk :
    (∀ (st : DecoderState) (t : Str), st.buffer = [] →
      processChunk st (doneLine ++ '\n' :: t) = st) ∧
    chatStream [mkChunk (str "Hi"), doneLine ++ ['\n'], mkChunk (str " there")] =
      ⟨[], str "Hi there", [str "Hi", str " there"]⟩ := by
  constructor
  · intro st t hb
    unfold processChunk
    rw [splitNl_append_nl doneLine t (by decide)]
    exact processLines_done st doneLine _ (by rw [hb]; rfl)
  · decide

/-- Witness for C7: a terminator chunk with trailing content leaves a
concrete state unchanged. -/
theorem c7_witness :
    processChunk ⟨[], str "A", [str "A"]⟩ (doneLine ++ '\n' :: str ": x") =
      ⟨[], str "A", [str "A"]⟩ :=
  c7_done_only_breaks_chunk.1 ⟨[], str "A", [str "A"]⟩ (str ": x") rfl

/-! ### Split-line reassembly -/

theorem take_head_pos {α : Type} (k : Nat) (l : List α) (hk : 0 < k) :
    (l.take k).head? = l.head? := by
  cases l with
  | nil => simp
  | cons c r =>
    cases k with
    | zero => omega
    | succ n => simp [List.take_succ_cons]

theorem take_ne_nil_of {α : Type} (k : Nat) (l : List α) (hk : 0 < k) (hl : l ≠ []) :
    l.take k ≠ [] := by
  cases l with
  | nil => exact absurd rfl hl
  | cons c r =>
    cases k with
    | zero => omega
    | succ n => simp [List.take_succ_cons]

/-- C4, corrected.  The amended split-line reassembly: a line (no
newline inside, not starting with a colon, not the terminator) may be
split at any interior offset across two chunks and decodes to the same
state as arriving whole, for any preceding clean state and any
following chunks, provided that no proper prefix of the line equals the
terminator or parses successfully (such prefixes would fire the
terminator or success branches early) and that the whole line either
fails to parse or yields nonempty content (a successfully parsed line
with absent or empty content does not restore the pending buffer, so
splitting such a line changes the outcome, see c4_counterexample). -/
theorem c4_split_amended (L : Str) (k : Nat) (t : Str) (rest : List Str)
    (ans : Str) (evs : List Str)
    (hnl : '\n' ∉ L)
    (hk0 : 0 < k) (hk : k < L.length)
    (hhead : ¬ L.head? = some ':')
    (hdone : L ≠ doneLine)
    (hpre : ∀ j < L.length, 0 < j → L.take j ≠ doneLine ∧ parse (L.take j) = none)
    (hfull : parse L = none ∨ ∃ s, parse L = some (some s) ∧ s ≠ []) :
    chatStreamFrom ⟨[], ans, evs⟩ (L.take k :: (L.drop k ++ '\n' :: t) :: rest) =
      chatStreamFrom ⟨[], ans, evs⟩ ((L ++ '\n' :: t) :: rest) := by
  have hne : L ≠ [] := by
    intro e
    rw [e] at hk
    simp at hk
  have htake_nl : '\n' ∉ L.take k := fun m => hnl (List.take_subset k L m)
  have hdrop_nl : '\n' ∉ L.drop k := fun m => hnl (List.drop_subset k L m)
  have htk_ne : L.take k ≠ [] := take_ne_nil_of k L hk0 hne
  have h1 : processChunk ⟨[], ans, evs⟩ (L.take k) = ⟨L.take k, ans, evs⟩ := by
    unfold processChunk
    rw [splitNl_no_nl _ htake_nl]
    rw [processLines_null ⟨[], ans, evs⟩ (L.take k) []
      (by simpa [take_head_pos k L hk0] using hhead)
      (by simpa using (hpre k hk hk0).1)
      (by simpa using htk_ne)
      (by simpa using (hpre k hk hk0).2), processLines_nil]
    simp
  have key : processLines ⟨L.take k, ans, evs⟩ (L.drop k :: splitNl t) =
      processLines ⟨[], ans, evs⟩ (L :: splitNl t) := by
    have e1 : (⟨L.take k, ans, evs⟩ : DecoderState).buffer ++ L.drop k = L := by
      simp [List.take_append_drop]
    have e2 : (⟨([] : Str), ans, evs⟩ : DecoderState).buffer ++ L = L := by simp
    rcases hfull with hparse | ⟨s, hps, hs⟩
    · rw [processLines_null _ _ _ (by rw [e1]; exact hhead) (by rw [e1]; exact hdone)
        (by rw [e1]; exact hne) (by rw [e1]; exact hparse)]
      rw [processLines_null _ _ _ (by rw [e2]; exact hhead) (by rw [e2]; exact hdone)
        (by rw [e2]; exact hne) (by rw [e2]; exact hparse)]
      rw [e1, e2]
    · by_cases ha : ans = []
      · rw [processLines_content_fresh _ _ _ s (by rw [e1]; exact hps) hs ha,
          processLines_content_fresh _ _ _ s (by rw [e2]; exact hps) hs ha]
      · rw [processLines_content_append _ _ _ s (by rw [e1]; exact hps) hs ha,
          processLines_content_append _ _ _ s (by rw [e2]; exact hps) hs ha]
  simp only [chatStreamFrom, List.foldl_cons]
  rw [h1]
  suffices h2 : processChunk ⟨L.take k, ans, evs⟩ (L.drop k ++ '\n' :: t) =
      processChunk ⟨[], ans, evs⟩ (L ++ '\n' :: t) by rw [h2]
  unfold processChunk
  rw [splitNl_append_nl _ t hdrop_nl, splitNl_append_nl _ t hnl]
  exact key

/-- Witness for C4: the data line carrying "Hi" split after ten
characters decodes to the same state as the whole line. -/
theorem c4_witness :
    chatStreamFrom ⟨[], [], []⟩
        [(mkLine (str "Hi")).take 10, (mkLine (str "Hi")).drop 10 ++ '\n' :: []] =
      chatStreamFrom ⟨[], [], []⟩ [mkLine (str "Hi") ++ '\n' :: []] :=
  c4_split_amended (mkLine (str "Hi")) 10 [] [] [] []
    (by decide) (by decide) (by decide) (by decide) (by decide) (by decide)
    (Or.inr ⟨str "Hi", by decide, by decide⟩)

/-- Counterexample for C4 as stated: a data line whose payload parses
with no content decodes differently when split - delivered whole, the
stream yields "A" from the following line; split at offset 26, the
stale pending half corrupts the following line and the answer stays
empty. -/
theorem c4_counterexample :
    (chatStream [noContentLine ++ '\n' :: mkChunk (str "A")]).answer = str "A" ∧
    (chatStream [noContentLine.take 26,
        noContentLine.drop 26 ++ '\n' :: mkChunk (str "A")]).answer = [] ∧
    str "A" ≠ ([] : Str) := by decide

/-! ### Mode equivalence -/

theorem bufferedAnswer_bodyJson (c : Str) :
    bufferedAnswer (bodyJson c) = some (jsTrim c) := rfl

theorem mkLine_no_nl (s : Str) (hn : '\n' ∉ s) : '\n' ∉ mkLine s := by
  intro hm
  unfold mkLine at hm
  rcases List.mem_append.mp hm with hm1 | hm2
  · rcases List.mem_append.mp hm1 with ha | hb
    · exact absurd ha (by decide)
    · exact hn hb
  · exact absurd hm2 (by decide)

theorem processChunk_mkChunk (ans : Str) (evs : List Str) (s : Str)
    (hp : parse (mkLine s) = some (some s)) (hn : '\n' ∉ s) :
    processChunk ⟨[], ans, evs⟩ (mkChunk s) =
      if s = [] then ⟨[], ans, evs⟩
      else if ans = [] then
        ⟨[], jsTrim s, evs ++ (if jsTrim s = [] then [] else [jsTrim s])⟩
      else ⟨[], ans ++ s, evs ++ [s]⟩ := by
  unfold processChunk mkChunk
  rw [splitNl_append_nl (mkLine s) [] (mkLine_no_nl s hn)]
  by_cases hs : s = []
  · subst hs
    rw [if_pos rfl]
    rw [processLines_content_empty ⟨[], ans, evs⟩ (mkLine []) _ (by simpa using hp)]
    simp only [splitNl]
    rw [processLines_empty _ _ _ (by simp), processLines_nil]
  · rw [if_neg hs]
    by_cases ha : ans = []
    · rw [if_pos ha]
      rw [processLines_content_fresh ⟨[], ans, evs⟩ (mkLine s) _ s (by simpa using hp) hs ha]
      simp only [splitNl]
      rw [processLines_empty _ _ _ (by simp), processLines_nil]
    · rw [if_neg ha]
      rw [processLines_content_append ⟨[], ans, evs⟩ (mkLine s) _ s (by simpa using hp) hs ha]
      simp only [splitNl]
      rw [processLines_empty _ _ _ (by simp), processLines_nil]

theorem run_mkChunks_started (fs : List Str) (ans : Str) (evs : List Str)
    (hans : ans ≠ [])
    (hp : ∀ s ∈ fs, parse (mkLine s) = some (some s))
    (hn : ∀ s ∈ fs, '\n' ∉ s) :
    (chatStreamFrom ⟨[], ans, evs⟩ (fs.map mkChunk)).answer = ans ++ concatS fs := by
  induction fs generalizing ans evs with
  | nil => simp [chatStreamFrom, concatS]
  | cons f rest ih =>
    have hpr : ∀ s ∈ rest, parse (mkLine s) = some (some s) := fun s m => hp s (by simp [m])
    have hnr : ∀ s ∈ rest, '\n' ∉ s := fun s m => hn s (by simp [m])
    simp only [List.map_cons, chatStreamFrom, List.foldl_cons]
    rw [processChunk_mkChunk ans evs f (hp f (by simp)) (hn f (by simp))]
    by_cases hf : f = []
    · subst hf
      rw [if_pos rfl]
      have := ih ans evs hans hpr hnr
      simpa [chatStreamFrom, concatS_cons] using this
    · rw [if_neg hf, if_neg hans]
      have := ih (ans ++ f) (evs ++ [f]) (by simp [hans]) hpr hnr
      simp only [chatStreamFrom] at this
      rw [this, concatS_cons, List.append_assoc]

theorem run_mkChunks_unstarted (fs : List Str) (evs : List Str)
    (hp : ∀ s ∈ fs, parse (mkLine s) = some (some s))
    (hn : ∀ s ∈ fs, '\n' ∉ s)
    (hc : c1cond fs = true) :
    (chatStreamFrom ⟨[], [], evs⟩ (fs.map mkChunk)).answer = jsTrim (concatS fs) := by
  induction fs generalizing evs with
  | nil => rfl
  | cons f rest ih =>
    have hpr : ∀ s ∈ rest, parse (mkLine s) = some (some s) := fun s m => hp s (by simp [m])
    have hnr : ∀ s ∈ rest, '\n' ∉ s := fun s m => hn s (by simp [m])
    simp only [List.map_cons, chatStreamFrom, List.foldl_cons]
    rw [processChunk_mkChunk [] evs f (hp f (by simp)) (hn f (by simp))]
    by_cases hf : f = []
    · subst hf
      rw [if_pos rfl]
      have hcr : c1cond rest = true := by
        unfold c1cond at hc
        rwa [if_pos (show jsTrim [] = [] from rfl)] at hc
      have := ih evs hpr hnr hcr
      simp only [chatStreamFrom] at this
      rw [this, concatS_cons, List.nil_append]
    · rw [if_neg hf, if_pos rfl]
      by_cases ht : jsTrim f = []
      · have hcr : c1cond rest = true := by
          unfold c1cond at hc
          rwa [if_pos ht] at hc
        rw [ht]
        simp only [if_true, List.append_nil]
        have := ih evs hpr hnr hcr
        simp only [chatStreamFrom] at this
        rw [this, concatS_cons, jsTrim_nil_append f (concatS rest) ht]
      · have hcc : jsTrimR f = f ∧ jsTrimR (concatS rest) = concatS rest := by
          unfold c1cond at hc
          rw [if_neg ht] at hc
          simpa using hc
        have hrun := run_mkChunks_started rest (jsTrim f) (evs ++ [jsTrim f]) ht hpr hnr
        simp only [chatStreamFrom] at hrun
        rw [if_neg ht, hrun, concatS_cons]
        have hL : jsTrimL f ≠ [] := jsTrim_ne_nil_trimL f ht
        have hTfL : jsTrim f = jsTrimL f := jsTrim_eq_trimL f hcc.1 hL
        by_cases hr : concatS rest = []
        · rw [hr, List.append_nil, List.append_nil]
        · have hkey : jsTrim (f ++ concatS rest) = jsTrimL f ++ concatS rest := by
            unfold jsTrim
            rw [jsTrimL_append_ne f (concatS rest) hL]
            exact jsTrimR_append_keep (jsTrimL f) (concatS rest) hr hcc.2
          rw [hkey, ← hTfL]

/-- C1, corrected.  The amended mode equivalence: for an upstream answer
delivered once as the buffered body and once as single-delta SSE data
lines whose contents concatenate to the same text, the buffered call
and the streaming call return the same final answer, provided the
fragments are newline-free and survive serialization (the parse
hypothesis), the first content-bearing fragment carries no trailing
whitespace, and the fragments after it concatenate to a text with no
trailing whitespace.  Without the proviso the two modes differ: the
buffered path trims the whole text at both ends while the streaming
path trims only the first content-bearing fragment (at both of its
ends), see c1_counterexample. -/
theorem c1_mode_equiv_amended (fs : List Str)
    (hp : ∀ s ∈ fs, parse (mkLine s) = some (some s))
    (hn : ∀ s ∈ fs, '\n' ∉ s)
    (hc : c1cond fs = true) :
    bufferedAnswer (bodyJson (concatS fs)) =
      some ((chatStream (fs.map mkChunk)).answer) := by
  rw [bufferedAnswer_bodyJson]
  have h := run_mkChunks_unstarted fs [] hp hn hc
  unfold chatStream initState
  exact congrArg some h.symm

/-- Witness for C1 with the fragments "hi" and " there". -/
theorem c1_witness :
    bufferedAnswer (bodyJson (concatS [str "hi", str " there"])) =
      some ((chatStream ([str "hi", str " there"].map mkChunk)).answer) :=
  c1_mode_equiv_amended [str "hi", str " there"] (by decide) (by decide) (by decide)

/-- Counterexample for C1 as stated: the fragments " hi " and "!"
concatenate to " hi !", whose buffered answer is "hi !", but the
streaming call answers "hi!" - the trailing space of the first
fragment, interior to the full text, is lost to the first-fragment
trim. -/
theorem c1_counterexample :
    concatS [str " hi ", str "!"] = str " hi !" ∧
    bufferedAnswer (bodyJson (str " hi !")) = some (str "hi !") ∧
    (chatStream ([str " hi ", str "!"].map mkChunk)).answer = str "hi!" ∧
    str "hi!" ≠ str "hi !" := by decide
